import Mathlib

/-!
# Verification of the Azure Updates dashboard pipeline

Shallow embedding of `src/streamlit_app.py` (the Playwright-scraping variant of
the Azure Updates dashboard).  The HTML/DOM layer (BeautifulSoup selectors,
container walking) is an external collaborator: an `Anchor` records exactly the
values the selectors of `parse_updates` would extract from one
`a[href*="/updates/"]` element and its surrounding card container.  Python
`datetime` values are represented by their wall-clock fields plus an optional
UTC offset (`DateParts`), and compared through their UTC epoch seconds
(`toEpoch`); a naive datetime is interpreted as UTC.  `datetime.now(timezone.utc)`
is modelled by an explicit `now : Int` parameter threaded into parsing.
-/

namespace AzureUpdates

/-! ## Character and string utilities -/

/-- Numeric value of a decimal digit character. -/
def digitVal (c : Char) : Nat := c.toNat - 48

/-- Read exactly `n` decimal digits, returning their value and the rest. -/
def readDigits : Nat → List Char → Option (Nat × List Char)
  | 0, cs => some (0, cs)
  | _ + 1, [] => none
  | n + 1, c :: cs =>
    if c.isDigit then
      match readDigits n cs with
      | some (v, rest) => some (digitVal c * 10 ^ n + v, rest)
      | none => none
    else none

/-- Consume one expected character. -/
def expectChar (c : Char) : List Char → Option (List Char)
  | [] => none
  | d :: cs => if d = c then some cs else none

/-- ASCII whitespace as matched by Python's regex `\s` on ASCII text. -/
def isSpaceChar (c : Char) : Bool :=
  c = ' ' || c = '\t' || c = '\n' || c = '\r' || c.toNat = 11 || c.toNat = 12

/-- Word characters for the regex `\b` boundary (`[a-zA-Z0-9_]`). -/
def isWordChar (c : Char) : Bool := c.isAlpha || c.isDigit || c = '_'

/-- ASCII lower-casing of one character (Python `str.lower` on ASCII text). -/
def lowerChar (c : Char) : Char :=
  if 'A' ≤ c ∧ c ≤ 'Z' then Char.ofNat (c.toNat + 32) else c

/-- Python `s.lower()` (ASCII). -/
def pyLower (s : String) : String := ⟨s.toList.map lowerChar⟩

/-- Strip leading and trailing whitespace from a character list. -/
def trimChars (cs : List Char) : List Char :=
  ((cs.dropWhile isSpaceChar).reverse.dropWhile isSpaceChar).reverse

/-- Python `s.strip()` (ASCII whitespace). -/
def pyStrip (s : String) : String := ⟨trimChars s.toList⟩

/-- Model of Python `needle in haystack` (substring containment). -/
def containsSub (needle : List Char) : List Char → Bool
  | [] => needle.isPrefixOf []
  | c :: rest => needle.isPrefixOf (c :: rest) || containsSub needle rest

/-- Python `needle in haystack` on strings. -/
def pyIn (needle hay : String) : Bool := containsSub needle.toList hay.toList

/-- Python `s.startswith(p)`. -/
def pyStartsWith (s p : String) : Bool := p.toList.isPrefixOf s.toList

/-- Python `s.endswith(p)`. -/
def pyEndsWith (s p : String) : Bool := p.toList.isSuffixOf s.toList

/-- `s.replace("Z", "+00:00")` on the character list (every occurrence). -/
def replaceZchars : List Char → List Char
  | [] => []
  | c :: rest =>
    if c = 'Z' then '+' :: '0' :: '0' :: ':' :: '0' :: '0' :: replaceZchars rest
    else c :: replaceZchars rest

/-- Model of `dt_str.replace("Z", "+00:00")` (line 109 of the source). -/
def replaceZ (s : String) : String := ⟨replaceZchars s.toList⟩

/-- Model of `match.group(0).replace(',', '')` (line 131 of the source). -/
def removeCommas (cs : List Char) : List Char := cs.filter (fun c => c ≠ ',')

/-! ## Calendar arithmetic -/

/-- Gregorian leap year, as in Python's `datetime`. -/
def isLeap (y : Nat) : Bool := (y % 4 == 0 && y % 100 != 0) || y % 400 == 0

/-- Number of days in a month (`datetime` validates the day against this). -/
def daysInMonth (y m : Nat) : Nat :=
  if m = 2 then (if isLeap y then 29 else 28)
  else if m = 4 ∨ m = 6 ∨ m = 9 ∨ m = 11 then 30
  else 31

/-- Days from 1970-01-01 to year `y`, month `m`, day `d` (civil calendar,
valid for `1 ≤ y`, `1 ≤ m ≤ 12`, `1 ≤ d`). -/
def daysSinceEpoch (y m d : Nat) : Int :=
  let yy := if m ≤ 2 then y - 1 else y
  let era := yy / 400
  let yoe := yy % 400
  let mp := (m + 9) % 12
  let doy := (153 * mp + 2) / 5 + (d - 1)
  let doe := yoe * 365 + yoe / 4 - yoe / 100 + doy
  ((era * 146097 + doe : Nat) : Int) - 719468

/-- A parsed `datetime` value: wall-clock fields plus an optional UTC offset in
minutes (`none` models a naive datetime). -/
structure DateParts where
  year : Nat
  month : Nat
  day : Nat
  hour : Nat
  minute : Nat
  second : Nat
  tzOffsetMinutes : Option Int
  deriving DecidableEq, Repr

/-- Whether a datetime value is timezone-aware (`tzinfo` set). -/
def isAware (p : DateParts) : Bool := p.tzOffsetMinutes.isSome

/-- Epoch seconds of the wall-clock fields alone, ignoring any offset.  This
is a strictly monotone encoding of the lexicographic field order Python uses
to compare two naive datetimes. -/
def wallClockSeconds (p : DateParts) : Int :=
  daysSinceEpoch p.year p.month p.day * 86400
    + ((p.hour * 3600 + p.minute * 60 + p.second : Nat) : Int)

/-- Python comparison `p <= q` on two datetime values: two naive values
compare by their wall-clock fields, two aware values by their UTC instant,
and comparing a naive with an aware value raises `TypeError` (`none`). -/
def pyDtLe (p q : DateParts) : Option Bool :=
  match p.tzOffsetMinutes, q.tzOffsetMinutes with
  | none, none => some (decide (wallClockSeconds p ≤ wallClockSeconds q))
  | some op, some oq =>
    some (decide (wallClockSeconds p - 60 * op ≤ wallClockSeconds q - 60 * oq))
  | _, _ => none

/-- The comparison key used inside a uniformly-comparable list: for an aware
value the UTC instant, for a naive value the wall clock (offset defaulted to
0, which is vacuous when the whole list is naive).  Within an all-naive or
all-aware list, `dtKey p ≤ dtKey q ↔ pyDtLe p q = some true`. -/
def dtKey (p : DateParts) : Int :=
  wallClockSeconds p - 60 * p.tzOffsetMinutes.getD 0

/-! ## `datetime.fromisoformat`

Model of `datetime.fromisoformat` on the ISO-8601 grammar
`YYYY-MM-DD[<sep>HH[:MM[:SS]][±HH:MM]]` — the forms this program can feed it
(the `"Z"` suffix is rewritten to `"+00:00"` by `replaceZ` before the call,
mirroring line 109 of the source). -/

/-- Optional `:MM[:SS]` after the hour. -/
def parseMinSec (cs : List Char) : Option (Nat × Nat × List Char) :=
  match cs with
  | ':' :: r2 =>
    match readDigits 2 r2 with
    | none => none
    | some (mi, r3) =>
      match r3 with
      | ':' :: r4 =>
        match readDigits 2 r4 with
        | none => none
        | some (se, r5) => some (mi, se, r5)
      | _ => some (mi, 0, r3)
  | _ => some (0, 0, cs)

/-- Optional trailing UTC offset `±HH:MM` (must consume the whole rest). -/
def parseOffset (cs : List Char) : Option (Option Int) :=
  match cs with
  | [] => some none
  | sign :: r2 => do
    guard (sign = '+' ∨ sign = '-')
    let (oh, r3) ← readDigits 2 r2
    let r4 ← expectChar ':' r3
    let (om, r5) ← readDigits 2 r4
    guard (r5 = [] ∧ oh ≤ 23 ∧ om ≤ 59)
    let off : Int := ((oh * 60 + om : Nat) : Int)
    pure (some (if sign = '-' then -off else off))

/-- `datetime.fromisoformat` (restricted to the grammar above). -/
def fromisoformat (s : String) : Option DateParts := do
  let cs := s.toList
  let (y, cs) ← readDigits 4 cs
  let cs ← expectChar '-' cs
  let (mo, cs) ← readDigits 2 cs
  let cs ← expectChar '-' cs
  let (d, cs) ← readDigits 2 cs
  guard (1 ≤ y ∧ 1 ≤ mo ∧ mo ≤ 12 ∧ 1 ≤ d ∧ d ≤ daysInMonth y mo)
  match cs with
  | [] => pure ⟨y, mo, d, 0, 0, 0, none⟩
  | _sep :: rest => do
    let (h, rest) ← readDigits 2 rest
    let (mi, se, rest) ← parseMinSec rest
    guard (h ≤ 23 ∧ mi ≤ 59 ∧ se ≤ 59)
    let off ← parseOffset rest
    pure ⟨y, mo, d, h, mi, se, off⟩

/-! ## `datetime.strptime`

Model of `datetime.strptime` for the five format strings tried at line 112 of
the source.  Python compiles each format to an anchored, case-insensitive
regex that must consume the whole input: `%B`/`%b` match full/abbreviated
month names, whitespace in the format matches `\s+`, a literal `,` must be
present in the input, `%d` matches a 1–2 digit day in 1..31, `%m` a 1–2 digit
month in 1..12 and `%Y` exactly four digits; `datetime` construction then
validates the day against the month length. -/

inductive Fmt
  /-- `"%B %d, %Y"` -/ | BdY
  /-- `"%b %d, %Y"` -/ | bdY
  /-- `"%B %Y"` -/ | BY
  /-- `"%b %Y"` -/ | bY
  /-- `"%Y-%m-%d"` -/ | Ymd
  deriving DecidableEq, Repr

/-- Full month names (lower case), with their month numbers. -/
def monthNamesFull : List (List Char × Nat) :=
  [("january".toList, 1), ("february".toList, 2), ("march".toList, 3),
   ("april".toList, 4), ("may".toList, 5), ("june".toList, 6),
   ("july".toList, 7), ("august".toList, 8), ("september".toList, 9),
   ("october".toList, 10), ("november".toList, 11), ("december".toList, 12)]

/-- Abbreviated month names (lower case), with their month numbers. -/
def monthNamesAbbr : List (List Char × Nat) :=
  [("jan".toList, 1), ("feb".toList, 2), ("mar".toList, 3), ("apr".toList, 4),
   ("may".toList, 5), ("jun".toList, 6), ("jul".toList, 7), ("aug".toList, 8),
   ("sep".toList, 9), ("oct".toList, 10), ("nov".toList, 11), ("dec".toList, 12)]

/-- Case-insensitive match of one month name from the table. -/
def matchMonth (names : List (List Char × Nat)) (cs : List Char) :
    Option (Nat × List Char) :=
  names.findSome? fun nm =>
    if nm.1.isPrefixOf (cs.map Char.toLower) then some (nm.2, cs.drop nm.1.length)
    else none

/-- `\s+`: at least one whitespace character, consumed greedily. -/
def skipSpaces1 (cs : List Char) : Option (List Char) :=
  match cs with
  | c :: rest => if isSpaceChar c then some (rest.dropWhile isSpaceChar) else none
  | [] => none

/-- `%d`: a 1–2 digit day in 1..31 (regex `3[01]|[12]\d|0[1-9]|[1-9]`); in the
formats used here the day is followed by a non-digit or the end, so a
digit run of length ≥ 3 can never match. -/
def readDay (cs : List Char) : Option (Nat × List Char) :=
  match cs.takeWhile Char.isDigit with
  | [d1] => let v := digitVal d1; if 1 ≤ v then some (v, cs.drop 1) else none
  | [d1, d2] =>
    let v := digitVal d1 * 10 + digitVal d2
    if 1 ≤ v ∧ v ≤ 31 then some (v, cs.drop 2) else none
  | _ => none

/-- `%m`: a 1–2 digit month in 1..12 (regex `1[0-2]|0[1-9]|[1-9]`). -/
def readMonthNum (cs : List Char) : Option (Nat × List Char) :=
  match cs.takeWhile Char.isDigit with
  | [d1] => let v := digitVal d1; if 1 ≤ v then some (v, cs.drop 1) else none
  | [d1, d2] =>
    let v := digitVal d1 * 10 + digitVal d2
    if 1 ≤ v ∧ v ≤ 12 then some (v, cs.drop 2) else none
  | _ => none

/-- `datetime(year, month, day)` construction: validates the calendar day and
`MINYEAR = 1`; the result is naive with time `00:00:00`. -/
def finishDate (y mo d : Nat) : Option DateParts :=
  if 1 ≤ y ∧ 1 ≤ d ∧ d ≤ daysInMonth y mo then some ⟨y, mo, d, 0, 0, 0, none⟩
  else none

/-- `datetime.strptime(s, fmt)` for the five formats of the source. -/
def strptime (s : String) (fmt : Fmt) : Option DateParts := do
  let cs := s.toList
  match fmt with
  | .BdY =>
    let (mo, cs) ← matchMonth monthNamesFull cs
    let cs ← skipSpaces1 cs
    let (d, cs) ← readDay cs
    let cs ← expectChar ',' cs
    let cs ← skipSpaces1 cs
    let (y, cs) ← readDigits 4 cs
    guard (cs = [])
    finishDate y mo d
  | .bdY =>
    let (mo, cs) ← matchMonth monthNamesAbbr cs
    let cs ← skipSpaces1 cs
    let (d, cs) ← readDay cs
    let cs ← expectChar ',' cs
    let cs ← skipSpaces1 cs
    let (y, cs) ← readDigits 4 cs
    guard (cs = [])
    finishDate y mo d
  | .BY =>
    let (mo, cs) ← matchMonth monthNamesFull cs
    let cs ← skipSpaces1 cs
    let (y, cs) ← readDigits 4 cs
    guard (cs = [])
    finishDate y mo 1
  | .bY =>
    let (mo, cs) ← matchMonth monthNamesAbbr cs
    let cs ← skipSpaces1 cs
    let (y, cs) ← readDigits 4 cs
    guard (cs = [])
    finishDate y mo 1
  | .Ymd =>
    let (y, cs) ← readDigits 4 cs
    let cs ← expectChar '-' cs
    let (mo, cs) ← readMonthNum cs
    let cs ← expectChar '-' cs
    let (d, cs) ← readDay cs
    guard (cs = [])
    finishDate y mo d

/-! ## Regex search models

`re.search` with the word-boundary patterns of the source, modelled by a
left-to-right scan that tracks whether the previous character is a word
character (for the `\b` before a match; every pattern here starts and ends
with a word character). -/

/-- Does one of the word alternatives match at the head of `cs`, with a word
boundary after it? -/
def matchAltHere (alts : List (List Char)) (cs : List Char) : Bool :=
  alts.any fun alt =>
    alt.isPrefixOf cs &&
      (match cs.drop alt.length with
       | [] => true
       | c :: _ => !isWordChar c)

/-- Scan for a whole-word occurrence of one of the alternatives; `prev` says
whether the character before the current position is a word character. -/
def searchWordAux (alts : List (List Char)) : Bool → List Char → Bool
  | _, [] => false
  | prev, c :: rest =>
    (!prev && matchAltHere alts (c :: rest)) || searchWordAux alts (isWordChar c) rest

/-- The alternatives of the regex in `is_launched` (source line 165). -/
def launchedAlts : List (List Char) :=
  ["launched".toList, "available".toList, "ga".toList, "general availability".toList]

/-- `is_launched` (source lines 163–165): searches
`\b(launched|available|ga|general availability)\b` in `(status_text or "").lower()`. -/
def is_launched (statusText : Option String) : Bool :=
  searchWordAux launchedAlts false (pyLower (statusText.getD "")).toList

/-- Capitalized full month names, as written in the first date pattern. -/
def monthCapFull : List (List Char) :=
  ["January".toList, "February".toList, "March".toList, "April".toList,
   "May".toList, "June".toList, "July".toList, "August".toList,
   "September".toList, "October".toList, "November".toList, "December".toList]

/-- Capitalized abbreviated month names, as written in the second pattern. -/
def monthCapAbbr : List (List Char) :=
  ["Jan".toList, "Feb".toList, "Mar".toList, "Apr".toList, "May".toList,
   "Jun".toList, "Jul".toList, "Aug".toList, "Sep".toList, "Oct".toList,
   "Nov".toList, "Dec".toList]

/-- Match `(Month)\s+\d{1,2},?\s+\d{4}\b` at the head of `cs` (the case-
sensitive container-text patterns; `re.search` there has no IGNORECASE flag).
Returns the length of `group(0)`.  A digit run of length ≥ 3 cannot match
`\d{1,2}` here because the follower (`,?\s+`) never consumes a digit. -/
def matchMonthDateAt (names : List (List Char)) (cs : List Char) : Option Nat :=
  names.findSome? fun nm =>
    if nm.isPrefixOf cs then
      let r1 := cs.drop nm.length
      let sp := r1.takeWhile isSpaceChar
      if sp.length = 0 then none else
      let r2 := r1.drop sp.length
      let ds := r2.takeWhile Char.isDigit
      if ds.length = 0 ∨ 3 ≤ ds.length then none else
      let r3 := r2.drop ds.length
      let comma : Nat := match r3 with | ',' :: _ => 1 | _ => 0
      let r4 := r3.drop comma
      let sp2 := r4.takeWhile isSpaceChar
      if sp2.length = 0 then none else
      match r4.drop sp2.length with
      | a :: b :: c :: d :: r6 =>
        if a.isDigit && b.isDigit && c.isDigit && d.isDigit &&
            (match r6 with | [] => true | e :: _ => !isWordChar e) then
          some (nm.length + sp.length + ds.length + comma + sp2.length + 4)
        else none
      | _ => none
    else none

/-- Match `\d{4}-\d{2}-\d{2}\b` at the head of `cs` (third pattern). -/
def matchIsoDateAt (cs : List Char) : Option Nat :=
  match cs with
  | a :: b :: c :: d :: '-' :: e :: f :: '-' :: g :: h :: r =>
    if a.isDigit && b.isDigit && c.isDigit && d.isDigit && e.isDigit &&
        f.isDigit && g.isDigit && h.isDigit &&
        (match r with | [] => true | x :: _ => !isWordChar x) then
      some 10
    else none
  | _ => none

/-- `re.search` for a date pattern: leftmost match, `\b` before the match
enforced via `prev`; returns the `group(0)` text. -/
def searchDateAux (matchAt : List Char → Option Nat) :
    Bool → List Char → Option (List Char)
  | _, [] => none
  | prev, c :: rest =>
    match (if prev then none else matchAt (c :: rest)) with
    | some n => some ((c :: rest).take n)
    | none => searchDateAux matchAt (isWordChar c) rest

/-! ## The date-extraction logic of `parse_updates` (source lines 100–137) -/

/-- A `<time>` element found in the card container: its `datetime` attribute
(if any) and its stripped text. -/
structure TimeEl where
  datetimeAttr : Option String
  text : String
  deriving DecidableEq, Repr

/-- `time_el.get("datetime") or time_el.get_text(strip=True)` (source line
106); Python `or` falls through on `None` and on the empty string. -/
def dtStr (te : TimeEl) : String :=
  match te.datetimeAttr with
  | some s => if s = "" then te.text else s
  | none => te.text

/-- Source lines 104–117: `fromisoformat` on the Z-rewritten string, then the
five `strptime` formats in order; a `strptime` result is made timezone-aware
with `tzinfo=timezone.utc`. -/
def tryTimeEl (te : TimeEl) : Option DateParts :=
  let s := dtStr te
  match fromisoformat (replaceZ s) with
  | some p => some p
  | none =>
    match [Fmt.BdY, Fmt.bdY, Fmt.BY, Fmt.bY, Fmt.Ymd].findSome? (strptime s) with
    | some p => some { p with tzOffsetMinutes := some 0 }
    | none => none

/-- Source lines 119–134: scan the container text with the three date
patterns in order; on a regex match, `strptime` runs on the match with all
commas removed (so the two month-name formats, whose format strings contain a
literal comma, can never succeed — only the ISO pattern can parse). -/
def scanContainerDates (ctext : String) : Option DateParts :=
  let tryPat (found : Option (List Char)) (fmt : Fmt) : Option DateParts :=
    match found with
    | none => none
    | some g0 => strptime ⟨removeCommas g0⟩ fmt
  match tryPat (searchDateAux (matchMonthDateAt monthCapFull) false ctext.toList) Fmt.BdY with
  | some p => some p
  | none =>
    match tryPat (searchDateAux (matchMonthDateAt monthCapAbbr) false ctext.toList) Fmt.bdY with
    | some p => some p
    | none => tryPat (searchDateAux matchIsoDateAt false ctext.toList) Fmt.Ymd

/-- The container-scan result made timezone-aware (`tzinfo=timezone.utc`,
source line 131). -/
def scanContainerUtc (ctext : String) : Option DateParts :=
  (scanContainerDates ctext).map fun p => { p with tzOffsetMinutes := some 0 }

/-- All date candidates of one item, in the order the source tries them:
the `<time>` element (when present), then the container-text scan. -/
def parseDateCandidates (timeEl : Option TimeEl) (ctext : String) : Option DateParts :=
  match (match timeEl with | some te => tryTimeEl te | none => none) with
  | some p => some p
  | none => scanContainerUtc ctext

/-- The full date-extraction step: the first successful candidate (which may
be naive — e.g. `fromisoformat` on a date-only `datetime` attribute — or
aware), else the fallback `datetime.now(timezone.utc)` (source lines
136–137), modelled by the explicit aware parameter `now`. -/
def extractDate (timeEl : Option TimeEl) (ctext : String) (now : DateParts) :
    DateParts :=
  match parseDateCandidates timeEl ctext with
  | some p => p
  | none => now

/-! ## `parse_updates` (source lines 54–161)

One `Anchor` records the values the BeautifulSoup selectors extract for one
`a[href*="/updates/"]` element and its card container: the `href` attribute
(`""` when absent, as in `link.get("href", "")`), the stripped link text, the
status element text (when a status element is found), the `<time>` element
(when found), the container text, the tag/category element texts in document
order, and the description element HTML (when found). -/

structure Anchor where
  href : String
  titleText : String
  statusEl : Option String
  timeEl : Option TimeEl
  containerText : String
  tagEls : List String
  descHtml : Option String
  deriving DecidableEq, Repr

/-- One parsed update record (the dict appended at source line 152).  The
`date` field is the Python `datetime` value, naive or aware. -/
structure Update where
  status : String
  title : String
  date : DateParts
  tags : List String
  link : String
  description_html : String
  deriving DecidableEq, Repr

/-- Navigation-link test (source line 72). -/
def isNavLink (href : String) : Bool :=
  pyIn "/updates/?query=" href || pyIn "/updates/#" href ||
    pyEndsWith href "/updates/" || pyEndsWith href "/updates"

/-- Tag-text filter (source line 144): non-empty, shorter than 50 characters,
and not a status word. -/
def keepTag (t : String) : Bool :=
  t != "" && t.length < 50 &&
    !(pyLower t == "launched" || pyLower t == "preview" || pyLower t == "available")

/-- First-occurrence deduplication by a string key, with an explicit set of
already-seen keys (models both `dict.fromkeys` at line 146 and the
`seen`-set loops at lines 64–75 and 183–190). -/
def dedupKeyAux {α : Type} (key : α → String) (seen : List String) :
    List α → List α
  | [] => []
  | x :: rest =>
    if key x ∈ seen then dedupKeyAux key seen rest
    else x :: dedupKeyAux key (key x :: seen) rest

/-- `list(dict.fromkeys(tags))` (source line 146). -/
def dedupTags (tags : List String) : List String := dedupKeyAux id [] tags

/-- Build the record appended for one accepted anchor (source lines 82–159). -/
def mkUpdate (now : DateParts) (a : Anchor) : Update :=
  { status := a.statusEl.getD "Launched"
    title := a.titleText
    date := extractDate a.timeEl a.containerText now
    tags := dedupTags (a.tagEls.filter keepTag)
    link :=
      if pyStartsWith a.href "http" then a.href
      else "https://azure.microsoft.com" ++ a.href
    description_html := a.descHtml.getD "" }

/-- The loop of `parse_updates` with the running `seen_links` set.  A
navigation link is skipped before `seen_links.add(href)`; an anchor whose
title is missing or shorter than 5 characters is skipped after it. -/
def parseUpdatesAux (now : DateParts) (seen : List String) : List Anchor → List Update
  | [] => []
  | a :: rest =>
    if a.href = "" ∨ a.href ∈ seen then parseUpdatesAux now seen rest
    else if isNavLink a.href then parseUpdatesAux now seen rest
    else if a.titleText = "" ∨ a.titleText.length < 5 then
      parseUpdatesAux now (a.href :: seen) rest
    else mkUpdate now a :: parseUpdatesAux now (a.href :: seen) rest

/-- `parse_updates` (source lines 54–161), with `datetime.now(timezone.utc)`
passed in as `now` (an aware datetime value). -/
def parse_updates (anchors : List Anchor) (now : DateParts) : List Update :=
  parseUpdatesAux now [] anchors

/-! ## Filter, dedup, sort (source lines 9–10 and 181–193) -/

/-- The filtered updates URL (source line 10). -/
def UPDATES_URL : String :=
  "https://azure.microsoft.com/en-us/updates?filters=[\"Launched\"]"

/-- Source line 182: `[u for u in updates if is_launched(u.get("status",
"Launched")) or "Launched" in UPDATES_URL]`. -/
def filterLaunched (updates : List Update) : List Update :=
  updates.filter fun u => is_launched (some u.status) || pyIn "Launched" UPDATES_URL

/-- Link deduplication (source lines 183–190). -/
def dedupByLink (l : List Update) : List Update := dedupKeyAux Update.link [] l

/-- The descending comparison used within a uniformly-comparable record
list: `dateDescLe a b` holds when `b.date <= a.date` under `dtKey`.  On an
all-naive or all-aware list this agrees with Python's datetime comparison
(`pyDtLe`); on a mixed pair — where Python raises instead of comparing — it
is never consulted, because `sortUpdates` fails first. -/
def dateDescLe (a b : Update) : Bool := decide (dtKey b.date ≤ dtKey a.date)

/-- Source line 193: `launched.sort(key=lambda x: x["date"], reverse=True)`.
Python `list.sort` is a stable comparison sort; with `reverse=True` it
orders by the key descending while preserving the relative order of
equal-key elements.  The datetime keys compare via `pyDtLe`: on a list
mixing naive and aware datetimes the sort must compare some mixed pair
(comparisons are the only source of ordering information, and timsort's
run detection already compares adjacent elements), so it raises
`TypeError: can't compare offset-naive and offset-aware datetimes` —
modelled as `none`.  On a uniformly-comparable list every comparison is
defined and the result is the stable descending order. -/
def sortUpdates (l : List Update) : Option (List Update) :=
  if l.all (fun u => isAware u.date) || l.all (fun u => !isAware u.date) then
    some (l.mergeSort dateDescLe)
  else none

/-- The records whose comparison key equals `k` — the equivalence classes of
"equal dates" within a uniformly-comparable list, used to state sort
stability. -/
def hasKey (k : Int) (u : Update) : Bool := dtKey u.date == k

/-! ## The status classifier of the non-scraping variants -/

/-- Modelled from the spec: the fixed, ordered phrase table of §4.1 step 3,
scanned case-insensitively with whole-word boundaries over
`title ++ " " ++ description`.  The regex alternatives `launched?` and
`retired?` are expanded into their two literal alternatives. -/
def phraseTable : List (List (List Char) × String) :=
  [(["generally available".toList, "ga".toList], "Generally Available"),
   (["public preview".toList], "Public Preview"),
   (["private preview".toList], "Private Preview"),
   (["launched".toList, "launche".toList], "Launched"),
   (["available".toList], "Available"),
   (["retired".toList, "retire".toList, "retirement".toList], "Retired")]

/-- Modelled from the spec: `classify(title, description, tags)` of §4.1 —
the status classifier implemented by the repository variants that are not
under `src/` (only the scraping variant is).  Decision order: a title that,
case-insensitively trimmed, starts with the bracketed token `[launched]`;
then a tag whose normalized term is exactly `launched`; then the first
matching row of the phrase table; else the default label `"Update"`. -/
def classify (title description : String) (tags : List String) : String :=
  if pyStartsWith (pyLower (pyStrip title)) "[launched]" then "Launched"
  else if tags.any (fun t => pyLower (pyStrip t) == "launched") then "Launched"
  else
    let text := pyLower (title ++ " " ++ description)
    match phraseTable.findSome?
        (fun row => if row.1.any (fun alt => searchWordAux [alt] false text.toList)
                    then some row.2 else none) with
    | some label => label
    | none => "Update"

/-- The closed set of labels `classify` can return. -/
def classifyLabels : List String :=
  ["Launched", "Generally Available", "Public Preview", "Private Preview",
   "Available", "Retired", "Update"]

/-! ## Concrete fixtures -/

/-- The concrete "current instant" used in counterexamples and witnesses: an
aware datetime, as `datetime.now(timezone.utc)` always is. -/
def tNow : DateParts := ⟨2024, 6, 1, 12, 0, 0, some 0⟩

/-- A record with a non-launched status (aware date). -/
def retiredUpdate : Update :=
  { status := "Retired", title := "Service X retirement notice",
    date := ⟨2024, 1, 1, 0, 0, 0, some 0⟩,
    tags := [], link := "https://azure.microsoft.com/en-us/updates/service-x",
    description_html := "" }

/-- A record with status `"Launched"` (aware date, newer). -/
def launchedUpdate : Update :=
  { status := "Launched", title := "Service Y is generally available",
    date := ⟨2024, 2, 1, 0, 0, 0, some 0⟩,
    tags := [], link := "https://azure.microsoft.com/en-us/updates/service-y",
    description_html := "" }

/-- An anchor whose card has no status element and no matching status
indicator anywhere. -/
def noStatusAnchor : Anchor :=
  { href := "/en-us/updates/widget-thing", titleText := "Widget thing update notes",
    statusEl := none, timeEl := none, containerText := "no date in this text",
    tagEls := [], descHtml := none }

/-- An anchor whose only date candidate is the unparseable free text
`"sometime next year"`. -/
def badDateAnchor : Anchor :=
  { href := "/en-us/updates/mystery-feature", titleText := "Mystery feature arriving",
    statusEl := some "In development",
    timeEl := some ⟨none, "sometime next year"⟩,
    containerText := "sometime next year", tagEls := [], descHtml := none }

/-- A malformed anchor: its title is shorter than 5 characters. -/
def shortTitleAnchor : Anchor :=
  { href := "/en-us/updates/dup-link", titleText := "ab",
    statusEl := none, timeEl := none, containerText := "", tagEls := [],
    descHtml := none }

/-- A well-formed anchor sharing `shortTitleAnchor`'s href. -/
def goodAnchor : Anchor :=
  { href := "/en-us/updates/dup-link", titleText := "Real update title",
    statusEl := some "Launched", timeEl := none, containerText := "", tagEls := [],
    descHtml := none }

/-- An anchor whose `<time>` element carries a date-only `datetime`
attribute: `fromisoformat("2024-01-15")` yields a naive datetime. -/
def naiveDateAnchor : Anchor :=
  { href := "/en-us/updates/naive-date", titleText := "Naive dated update",
    statusEl := some "Launched", timeEl := some ⟨some "2024-01-15", ""⟩,
    containerText := "", tagEls := [], descHtml := none }

/-- An anchor with no usable date anywhere: its record receives the aware
`datetime.now(timezone.utc)` fallback. -/
def noDateAnchor : Anchor :=
  { href := "/en-us/updates/no-date-card", titleText := "Undated update item",
    statusEl := some "Launched", timeEl := none,
    containerText := "text without dates", tagEls := [], descHtml := none }

/-- An anchor with duplicated and filtered-out tag elements. -/
def tagAnchor : Anchor :=
  { href := "/en-us/updates/tagged-item", titleText := "Tagged item title",
    statusEl := some "Launched", timeEl := none, containerText := "",
    tagEls := ["Networking", "Storage", "Networking", "Launched"],
    descHtml := none }

/-! ## Helper lemmas -/

theorem prefixOf_true_iff {l1 l2 : List Char} :
    l1.isPrefixOf l2 = true ↔ l1 <+: l2 :=
  List.isPrefixOf_iff_prefix

theorem pyStartsWith_append {s t p : String}
    (h : pyStartsWith s p = true) : pyStartsWith (s ++ t) p = true := by
  rw [pyStartsWith, prefixOf_true_iff] at h ⊢
  have hst : (s ++ t).toList = s.toList ++ t.toList := by
    simp [String.toList, String.data_append]
  rw [hst]
  exact h.trans (List.prefix_append s.toList t.toList)

theorem pyStartsWith_ne_empty {s p : String}
    (h : pyStartsWith s p = true) (hp : p ≠ "") : s ≠ "" := by
  rw [pyStartsWith, prefixOf_true_iff] at h
  intro hs
  subst hs
  have : p.toList = [] := List.prefix_nil.mp h
  exact hp (String.ext (by simpa [String.toList] using this))

/-- `dedupKeyAux` yields a sublist of its input (order preserved). -/
theorem dedupKeyAux_sublist {α : Type} (key : α → String) (seen : List String)
    (l : List α) : (dedupKeyAux key seen l).Sublist l := by
  induction l generalizing seen with
  | nil => simp [dedupKeyAux]
  | cons x rest ih =>
    rw [dedupKeyAux]
    split
    · exact (ih seen).cons x
    · exact (ih (key x :: seen)).cons₂ x

/-- Per key value, `dedupKeyAux` keeps exactly the first occurrence. -/
theorem dedupKeyAux_filter {α : Type} (key : α → String) (seen : List String)
    (l : List α) (k : String) :
    (dedupKeyAux key seen l).filter (fun x => key x == k) =
      if k ∈ seen then [] else (l.filter (fun x => key x == k)).take 1 := by
  induction l generalizing seen with
  | nil => simp [dedupKeyAux]
  | cons x rest ih =>
    rw [dedupKeyAux]
    by_cases hx : key x ∈ seen
    · rw [if_pos hx, ih]
      by_cases hk : key x = k
      · have hkseen : k ∈ seen := hk ▸ hx
        simp [hkseen]
      · have hb : (key x == k) = false := by simp [hk]
        simp [List.filter_cons, hb]
    · rw [if_neg hx]
      by_cases hk : key x = k
      · subst hk
        rw [List.filter_cons_of_pos (by simp), List.filter_cons_of_pos (by simp),
          ih (key x :: seen)]
        simp [hx]
      · rw [List.filter_cons_of_neg (by simp [hk]), List.filter_cons_of_neg (by simp [hk]),
          ih (key x :: seen)]
        have hne : k ≠ key x := fun h => hk h.symm
        by_cases hks : k ∈ seen
        · simp [hks]
        · simp [hks, hne]

/-- The keys of a `dedupKeyAux` result are pairwise distinct and avoid the
already-seen set. -/
theorem dedupKeyAux_nodup {α : Type} (key : α → String) (seen : List String)
    (l : List α) :
    ((dedupKeyAux key seen l).map key).Nodup ∧
      ∀ x ∈ dedupKeyAux key seen l, key x ∉ seen := by
  induction l generalizing seen with
  | nil => simp [dedupKeyAux]
  | cons x rest ih =>
    rw [dedupKeyAux]
    by_cases hx : key x ∈ seen
    · rw [if_pos hx]; exact ih seen
    · rw [if_neg hx]
      obtain ⟨ihn, ihs⟩ := ih (key x :: seen)
      refine ⟨?_, ?_⟩
      · simp only [List.map_cons, List.nodup_cons]
        exact ⟨fun hkx => by
          obtain ⟨y, hy, hky⟩ := List.mem_map.mp hkx
          exact (ihs y hy) (by simp [hky]), ihn⟩
      · intro y hy
        rcases List.mem_cons.mp hy with rfl | hy'
        · exact hx
        · exact fun hsn => (ihs y hy') (List.mem_cons_of_mem _ hsn)

/-- `dedupKeyAux` leaves a key-nodup list (disjoint from `seen`) unchanged. -/
theorem dedupKeyAux_of_nodup {α : Type} (key : α → String) (seen : List String)
    (l : List α) (h1 : (l.map key).Nodup) (h2 : ∀ x ∈ l, key x ∉ seen) :
    dedupKeyAux key seen l = l := by
  induction l generalizing seen with
  | nil => simp [dedupKeyAux]
  | cons x rest ih =>
    rw [dedupKeyAux]
    rw [if_neg (h2 x (List.mem_cons_self x rest))]
    congr 1
    apply ih
    · exact (List.nodup_cons.mp h1).2
    · intro y hy
      simp only [List.mem_cons]
      rintro (hky | hks)
      · exact (List.nodup_cons.mp h1).1 (hky ▸ List.mem_map_of_mem key hy)
      · exact h2 y (List.mem_cons_of_mem x hy) hks

/-- Every record produced by the `parse_updates` loop is `mkUpdate` of one of
the input anchors. -/
theorem parseUpdatesAux_mem {now : DateParts} {seen : List String} {l : List Anchor}
    {u : Update} (h : u ∈ parseUpdatesAux now seen l) :
    ∃ a, a ∈ l ∧ u = mkUpdate now a := by
  induction l generalizing seen with
  | nil => simp [parseUpdatesAux] at h
  | cons a rest ih =>
    rw [parseUpdatesAux] at h
    by_cases h1 : a.href = "" ∨ a.href ∈ seen
    · rw [if_pos h1] at h
      obtain ⟨b, hb, hu⟩ := ih h
      exact ⟨b, List.mem_cons_of_mem a hb, hu⟩
    · rw [if_neg h1] at h
      by_cases h2 : isNavLink a.href = true
      · rw [if_pos h2] at h
        obtain ⟨b, hb, hu⟩ := ih h
        exact ⟨b, List.mem_cons_of_mem a hb, hu⟩
      · rw [if_neg h2] at h
        by_cases h3 : a.titleText = "" ∨ a.titleText.length < 5
        · rw [if_pos h3] at h
          obtain ⟨b, hb, hu⟩ := ih h
          exact ⟨b, List.mem_cons_of_mem a hb, hu⟩
        · rw [if_neg h3] at h
          rcases List.mem_cons.mp h with rfl | h'
          · exact ⟨a, List.mem_cons_self a rest, rfl⟩
          · obtain ⟨b, hb, hu⟩ := ih h'
            exact ⟨b, List.mem_cons_of_mem a hb, hu⟩

/-- Every record produced by the `parse_updates` loop has a title of at least
5 characters. -/
theorem parseUpdatesAux_title {now : DateParts} {seen : List String} {l : List Anchor}
    {u : Update} (h : u ∈ parseUpdatesAux now seen l) : 5 ≤ u.title.length := by
  induction l generalizing seen with
  | nil => simp [parseUpdatesAux] at h
  | cons a rest ih =>
    rw [parseUpdatesAux] at h
    by_cases h1 : a.href = "" ∨ a.href ∈ seen
    · rw [if_pos h1] at h; exact ih h
    · rw [if_neg h1] at h
      by_cases h2 : isNavLink a.href = true
      · rw [if_pos h2] at h; exact ih h
      · rw [if_neg h2] at h
        by_cases h3 : a.titleText = "" ∨ a.titleText.length < 5
        · rw [if_pos h3] at h; exact ih h
        · rw [if_neg h3] at h
          rcases List.mem_cons.mp h with rfl | h'
          · push_neg at h3
            simpa [mkUpdate] using h3.2
          · exact ih h'

theorem replaceZchars_append (l1 l2 : List Char) :
    replaceZchars (l1 ++ l2) = replaceZchars l1 ++ replaceZchars l2 := by
  induction l1 with
  | nil => rfl
  | cons c rest ih =>
    by_cases hc : c = 'Z'
    · simp [replaceZchars, hc, ih]
    · simp [replaceZchars, hc, ih]

theorem replaceZchars_of_no_Z {l : List Char} (h : 'Z' ∉ l) :
    replaceZchars l = l := by
  induction l with
  | nil => rfl
  | cons c rest ih =>
    rw [replaceZchars,
      if_neg (fun hc => h (List.mem_cons.mpr (Or.inl hc.symm))),
      ih (fun hm => h (List.mem_cons_of_mem c hm))]

/-! ## Claim theorems -/

/-- C1, counterexample: for an item whose only date candidate is the
unparseable free text `"sometime next year"`, every candidate fails, yet the
normalizer returns the current instant (`now = 1700000000` here) and not the
Unix epoch — refuting the claim that the fallback is epoch-zero. -/
theorem C1_counterexample :
    parseDateCandidates badDateAnchor.timeEl badDateAnchor.containerText = none ∧
    (parse_updates [badDateAnchor] tNow).map Update.date = [tNow] ∧
    tNow ≠ ⟨1970, 1, 1, 0, 0, 0, some 0⟩ ∧ dtKey tNow ≠ 0 := by
  exact ⟨by decide, by decide, by decide, by decide⟩

/-- C1, amended: when every date candidate of an item fails to parse, the
date normalizer of `parse_updates` returns the current instant
(`datetime.now(timezone.utc)`, source lines 136–137) — not the Unix epoch —
so in the descending order the item sorts with the newest items rather than
last; `"sometime next year"` is such an all-candidates-fail input. -/
theorem C1_fallback_is_now :
    (∀ te ctext now, parseDateCandidates te ctext = none →
      extractDate te ctext now = now) ∧
    parseDateCandidates (some ⟨none, "sometime next year"⟩)
      "sometime next year" = none := by
  constructor
  · intro te ctext now h
    simp [extractDate, h]
  · decide

/-- C1 witness: the amended theorem applied to the concrete unparseable
input. -/
theorem C1_fallback_is_now_witness :
    extractDate (some ⟨none, "sometime next year"⟩) "sometime next year"
      tNow = tNow :=
  C1_fallback_is_now.1 (some ⟨none, "sometime next year"⟩)
    "sometime next year" tNow (by decide)

/-- C2, counterexample: a record with status `"Retired"` — which the
launched predicate rejects — still appears in the filtered `launched` list,
because the filter condition at source line 182 also accepts every record
for which `"Launched" in UPDATES_URL` holds, which is always. -/
theorem C2_counterexample :
    retiredUpdate ∈ filterLaunched [launchedUpdate, retiredUpdate] ∧
    is_launched (some retiredUpdate.status) = false := by
  exact ⟨by decide, by decide⟩

/-- C2, amended: the filter keeps a record iff `is_launched` accepts its
status OR the constant `UPDATES_URL` contains `"Launched"`; since the URL
does contain it, the filter keeps every record unchanged (no client-side
status filtering happens at all). -/
theorem C2_filter_keeps_everything :
    (∀ l : List Update, filterLaunched l = l) ∧
    pyIn "Launched" UPDATES_URL = true := by
  have hurl : pyIn "Launched" UPDATES_URL = true := by decide
  refine ⟨fun l => ?_, hurl⟩
  apply List.filter_eq_self.mpr
  intro u _
  simp [hurl]

/-- C3, counterexample: an item with no status indicator at all (no status
element in its card, a title that does not start with `[launched]`, no tags,
no phrase-table match — the spec-modelled `classify` indeed yields
`"Update"` on it) gets the default status `"Launched"`, not `"Update"`,
from the scraped variant (source line 98). -/
theorem C3_counterexample :
    (parse_updates [noStatusAnchor] tNow).map Update.status = ["Launched"] ∧
    classify noStatusAnchor.titleText "" [] = "Update" ∧
    ("Launched" : String) ≠ "Update" := by
  exact ⟨by decide, by decide, by decide⟩

/-- C3, amended: in the scraped variant under `src/`, the default status
label assigned when no status element is found in the card container is
`"Launched"`, not `"Update"`; every parsed record is `mkUpdate` of one of
the input anchors. -/
theorem C3_default_status_is_Launched :
    (∀ now a, a.statusEl = none → (mkUpdate now a).status = "Launched") ∧
    (∀ anchors now u, u ∈ parse_updates anchors now →
      ∃ a, a ∈ anchors ∧ u = mkUpdate now a) := by
  constructor
  · intro now a h
    simp [mkUpdate, h]
  · intro anchors now u h
    exact parseUpdatesAux_mem h

/-- C3 witness: the amended theorem applied to the concrete status-less
anchor. -/
theorem C3_default_status_is_Launched_witness :
    (mkUpdate tNow noStatusAnchor).status = "Launched" :=
  C3_default_status_is_Launched.1 tNow noStatusAnchor rfl

/-- C4: the date normalization step is total — for every input it either
returns the successfully parsed candidate datetime or the `now` fallback,
never failing — and a trailing literal `Z` on an ISO-8601 string is
rewritten to the UTC offset `+00:00` before parsing (source line 109), as
witnessed both structurally and on a concrete timestamp whose UTC instant
is epoch second 1705312800. -/
theorem C4_normalizer_total_and_Z_means_utc :
    (∀ te ctext now,
      (∃ p, parseDateCandidates te ctext = some p ∧
        extractDate te ctext now = p) ∨
      (parseDateCandidates te ctext = none ∧ extractDate te ctext now = now)) ∧
    (∀ base : String, 'Z' ∉ base.toList →
      replaceZ (base ++ "Z") = base ++ "+00:00") ∧
    fromisoformat (replaceZ "2024-01-15T10:00:00Z") =
      some ⟨2024, 1, 15, 10, 0, 0, some 0⟩ ∧
    dtKey ⟨2024, 1, 15, 10, 0, 0, some 0⟩ = 1705312800 := by
  refine ⟨?_, ?_, by decide, by decide⟩
  · intro te ctext now
    cases h : parseDateCandidates te ctext with
    | some p => exact Or.inl ⟨p, rfl, by simp [extractDate, h]⟩
    | none => exact Or.inr ⟨rfl, by simp [extractDate, h]⟩
  · intro base hb
    have hb' : 'Z' ∉ base.data := hb
    apply String.ext
    show (replaceZchars (base ++ "Z").data) = (base ++ "+00:00").data
    rw [String.data_append, String.data_append, replaceZchars_append,
      replaceZchars_of_no_Z hb']
    rfl

/-- C4 witness: the theorem applied at concrete inputs, discharging the
no-`Z` hypothesis on a concrete ISO date-time string. -/
theorem C4_normalizer_total_and_Z_means_utc_witness :
    replaceZ ("2024-01-15T10:00:00" ++ "Z") = "2024-01-15T10:00:00" ++ "+00:00" :=
  C4_normalizer_total_and_Z_means_utc.2.1 "2024-01-15T10:00:00" (by decide)

/-- C5, counterexample: a malformed anchor (title `"ab"`, shorter than 5
characters) sharing its href with a later well-formed anchor makes the later
anchor disappear from the output — `parse_updates` records the malformed
item's href in `seen_links` (source line 75) before the title check (line
79), so the later anchor is dropped as a duplicate.  Alone, the well-formed
anchor is extracted. -/
theorem C5_counterexample :
    parse_updates [shortTitleAnchor, goodAnchor] tNow = [] ∧
    parse_updates [goodAnchor] tNow = [mkUpdate tNow goodAnchor] := by
  exact ⟨by decide, by decide⟩

/-- C5, amended: every record in the output has a title of at least 5
characters, and a malformed item is silently skipped — iteration continues
with the remaining anchors — but its href is still added to `seen_links`
(unless the href itself was already rejected), so a later item with the
same href is dropped as a duplicate. -/
theorem C5_short_titles_skipped :
    (∀ anchors now u, u ∈ parse_updates anchors now → 5 ≤ u.title.length) ∧
    (∀ now seen bad rest, (bad.titleText = "" ∨ bad.titleText.length < 5) →
      parseUpdatesAux now seen (bad :: rest) =
        parseUpdatesAux now
          (if bad.href = "" ∨ bad.href ∈ seen ∨ isNavLink bad.href = true then seen
           else bad.href :: seen) rest) := by
  constructor
  · intro anchors now u h
    exact parseUpdatesAux_title h
  · intro now seen bad rest hbad
    rw [parseUpdatesAux]
    by_cases h1 : bad.href = "" ∨ bad.href ∈ seen
    · rw [if_pos h1, if_pos (by tauto)]
    · rw [if_neg h1]
      by_cases h2 : isNavLink bad.href = true
      · rw [if_pos h2, if_pos (by tauto)]
      · rw [if_neg h2, if_pos hbad, if_neg (by tauto)]

/-- C5 witness: the amended theorem applied to the concrete good and
malformed anchors. -/
theorem C5_short_titles_skipped_witness :
    5 ≤ (mkUpdate tNow goodAnchor).title.length ∧
    parseUpdatesAux tNow [] (shortTitleAnchor :: [goodAnchor]) =
      parseUpdatesAux tNow
        (if shortTitleAnchor.href = "" ∨ shortTitleAnchor.href ∈ ([] : List String) ∨
            isNavLink shortTitleAnchor.href = true then []
         else shortTitleAnchor.href :: []) [goodAnchor] :=
  ⟨C5_short_titles_skipped.1 [goodAnchor] tNow (mkUpdate tNow goodAnchor) (by decide),
   C5_short_titles_skipped.2 tNow [] shortTitleAnchor [goodAnchor] (by decide)⟩

/-- C6: link deduplication keeps, per link value, exactly the first
occurrence in original order (its output is an order-preserving sublist of
the input whose filter at each link value is the first element of the
input's filter), is idempotent, and leaves an input with pairwise-distinct
links unchanged. -/
theorem C6_dedup_first_stable_idempotent :
    ∀ l : List Update,
      (dedupByLink l).Sublist l ∧
      (∀ k, (dedupByLink l).filter (fun u => u.link == k) =
        (l.filter (fun u => u.link == k)).take 1) ∧
      dedupByLink (dedupByLink l) = dedupByLink l ∧
      ((l.map Update.link).Nodup → dedupByLink l = l) := by
  intro l
  refine ⟨dedupKeyAux_sublist Update.link [] l, ?_, ?_, ?_⟩
  · intro k
    have h := dedupKeyAux_filter Update.link [] l k
    simpa [dedupByLink] using h
  · have hn := dedupKeyAux_nodup Update.link [] l
    exact dedupKeyAux_of_nodup Update.link [] (dedupKeyAux Update.link [] l)
      hn.1 (by simp)
  · intro h
    exact dedupKeyAux_of_nodup Update.link [] l h (by simp)

/-- C6 witness: the theorem applied to a concrete two-element list with
distinct links, discharging the nodup hypothesis. -/
theorem C6_dedup_first_stable_idempotent_witness :
    dedupByLink [launchedUpdate, retiredUpdate] = [launchedUpdate, retiredUpdate] :=
  (C6_dedup_first_stable_idempotent [launchedUpdate, retiredUpdate]).2.2.2 (by decide)

theorem dateDescLe_trans (a b c : Update) (hab : dateDescLe a b = true)
    (hbc : dateDescLe b c = true) : dateDescLe a c = true := by
  simp only [dateDescLe, decide_eq_true_eq] at *
  omega

theorem dateDescLe_total (a b : Update) :
    (dateDescLe a b || dateDescLe b a) = true := by
  simp only [dateDescLe, Bool.or_eq_true, decide_eq_true_eq]
  omega

/-- On a comparable pair (both naive or both aware), the sort comparison
`dateDescLe` agrees with Python's datetime comparison `pyDtLe`. -/
theorem dateDescLe_eq_pyDtLe {a b : Update}
    (h : isAware a.date = isAware b.date) :
    pyDtLe b.date a.date = some (dateDescLe a b) := by
  rcases ha : a.date.tzOffsetMinutes with _ | oa <;>
    rcases hb : b.date.tzOffsetMinutes with _ | ob
  · simp [pyDtLe, dateDescLe, dtKey, ha, hb]
  · simp [isAware, ha, hb] at h
  · simp [isAware, ha, hb] at h
  · simp [pyDtLe, dateDescLe, dtKey, ha, hb]

/-- C7, counterexample: a reachable record list mixing a naive date (parsed
by `fromisoformat` from a date-only `datetime` attribute, line 109) with the
aware `datetime.now(timezone.utc)` fallback (line 137) makes the line-193
sort raise `TypeError` instead of returning an ordered list — refuting the
claim that sorting orders every list of records. -/
theorem C7_counterexample :
    sortUpdates (parse_updates [naiveDateAnchor, noDateAnchor] tNow) = none ∧
    (parse_updates [naiveDateAnchor, noDateAnchor] tNow).map
      (fun u => isAware u.date) = [false, true] := by
  exact ⟨by decide, by decide⟩

/-- C7, amended: when the record dates are uniformly comparable — all naive
or all timezone-aware — the sort at line 193 succeeds and returns a
permutation of the records ordered by published date descending under
Python's datetime comparison, stable (the records at each date value keep
their pre-sort relative order) and idempotent; a list mixing naive and
aware dates instead raises `TypeError`. -/
theorem C7_sort_desc_stable_idempotent :
    ∀ l : List Update,
      (l.all (fun u => isAware u.date) || l.all (fun u => !isAware u.date)) = true →
      ∃ s, sortUpdates l = some s ∧
        s.Perm l ∧
        s.Pairwise (fun a b => pyDtLe b.date a.date = some true) ∧
        (∀ k, s.filter (hasKey k) = l.filter (hasKey k)) ∧
        sortUpdates s = some s := by
  intro l hl
  have huni : ∀ a ∈ l, ∀ b ∈ l, isAware a.date = isAware b.date := by
    rcases Bool.or_eq_true_iff.mp hl with h | h <;> rw [List.all_eq_true] at h
    · intro a ha b hb
      rw [h a ha, h b hb]
    · intro a ha b hb
      have ha' := h a ha
      have hb' := h b hb
      simp only [Bool.not_eq_true'] at ha' hb'
      rw [ha', hb']
  have hperm := List.mergeSort_perm l dateDescLe
  have hsorted := @List.sorted_mergeSort Update dateDescLe dateDescLe_trans
    dateDescLe_total l
  have hok : sortUpdates l = some (l.mergeSort dateDescLe) := by
    unfold sortUpdates
    rw [if_pos hl]
  refine ⟨l.mergeSort dateDescLe, hok, hperm, ?_, ?_, ?_⟩
  · refine List.Pairwise.imp_of_mem ?_ hsorted
    intro a b ha hb hr
    have hab : isAware a.date = isAware b.date :=
      huni a (hperm.mem_iff.mp ha) b (hperm.mem_iff.mp hb)
    rw [dateDescLe_eq_pyDtLe hab, hr]
  · intro k
    have hfself : ((l.filter (hasKey k)).filter (hasKey k)) =
        l.filter (hasKey k) :=
      List.filter_eq_self.mpr (fun a ha => (List.mem_filter.mp ha).2)
    have hsubl : (l.filter (hasKey k)).Sublist (l.mergeSort dateDescLe) := by
      apply @List.sublist_mergeSort Update dateDescLe l dateDescLe_trans
        dateDescLe_total (l.filter (hasKey k)) ?_ (List.filter_sublist l)
      apply List.pairwise_of_forall_mem_list
      intro a ha b hb
      have hak : dtKey a.date = k := by
        simpa [hasKey] using (List.mem_filter.mp ha).2
      have hbk : dtKey b.date = k := by
        simpa [hasKey] using (List.mem_filter.mp hb).2
      simp [dateDescLe, hak, hbk]
    have hsub2 : (l.filter (hasKey k)).Sublist
        ((l.mergeSort dateDescLe).filter (hasKey k)) := by
      have h2 := List.Sublist.filter (hasKey k) hsubl
      rwa [hfself] at h2
    have hpermf : ((l.mergeSort dateDescLe).filter (hasKey k)).Perm
        (l.filter (hasKey k)) :=
      List.Perm.filter (hasKey k) hperm
    exact (hsub2.eq_of_length hpermf.length_eq.symm).symm
  · have hall : ((l.mergeSort dateDescLe).all (fun u => isAware u.date) ||
        (l.mergeSort dateDescLe).all (fun u => !isAware u.date)) = true := by
      rcases Bool.or_eq_true_iff.mp hl with h | h
      · refine Bool.or_eq_true_iff.mpr (Or.inl ?_)
        rw [List.all_eq_true] at h ⊢
        intro x hx
        exact h x (hperm.mem_iff.mp hx)
      · refine Bool.or_eq_true_iff.mpr (Or.inr ?_)
        rw [List.all_eq_true] at h ⊢
        intro x hx
        exact h x (hperm.mem_iff.mp hx)
    have hid : (l.mergeSort dateDescLe).mergeSort dateDescLe =
        l.mergeSort dateDescLe :=
      @List.mergeSort_of_sorted Update dateDescLe (l.mergeSort dateDescLe) hsorted
    unfold sortUpdates
    rw [if_pos hall, hid]

/-- C7 witness: the amended theorem applied to a concrete all-aware record
list, discharging the uniform-comparability hypothesis. -/
theorem C7_sort_desc_stable_idempotent_witness :
    ∃ s, sortUpdates [retiredUpdate, launchedUpdate] = some s ∧
      s.Perm [retiredUpdate, launchedUpdate] := by
  obtain ⟨s, hs, hp, -⟩ :=
    C7_sort_desc_stable_idempotent [retiredUpdate, launchedUpdate] (by decide)
  exact ⟨s, hs, hp⟩

/-- C8: the status classifier is total and deterministic — it is a pure
function returning one of a fixed set of labels on every input; the title
`"[Launched] New region available"` classifies as `"Launched"` for every
description and tag list; and `is_launched` treats a `None` status text like
the empty string (both rejected). -/
theorem C8_classifier_total_deterministic :
    (∀ d tags, classify "[Launched] New region available" d tags = "Launched") ∧
    (∀ t d tags, classify t d tags ∈ classifyLabels) ∧
    (is_launched none = is_launched (some "") ∧ is_launched none = false) := by
  refine ⟨?_, ?_, by decide, by decide⟩
  · intro d tags
    have h : pyStartsWith (pyLower (pyStrip "[Launched] New region available"))
        "[launched]" = true := by decide
    simp [classify, h]
  · intro t d tags
    simp only [classify]
    by_cases h1 : pyStartsWith (pyLower (pyStrip t)) "[launched]" = true
    · simp [h1, classifyLabels]
    · simp only [h1, if_false]
      by_cases h2 : (tags.any fun g => pyLower (pyStrip g) == "launched") = true
      · simp [h2, classifyLabels]
      · simp only [h2, if_false]
        cases hf : phraseTable.findSome?
            (fun row => if (row.1.any fun alt =>
              searchWordAux [alt] false (pyLower (t ++ " " ++ d)).toList) = true
              then some row.2 else none) with
        | none => simp [hf, classifyLabels]
        | some label =>
          obtain ⟨row, hrow, hfrow⟩ := List.exists_of_findSome?_eq_some hf
          have hlabel : label = row.2 := by
            by_cases hc : (row.1.any fun alt =>
                searchWordAux [alt] false (pyLower (t ++ " " ++ d)).toList) = true
            · rw [if_pos hc] at hfrow
              exact (Option.some_injective _ hfrow).symm
            · rw [if_neg hc] at hfrow
              exact absurd hfrow (by simp)
          have hrow2 : row.2 ∈ classifyLabels := by
            fin_cases hrow <;> decide
          simp only [hf]
          exact hlabel ▸ hrow2

/-- C9: every record produced by extraction has duplicate-free tags, its
tags are the first-occurrence deduplication of its anchor's kept tag texts,
and that deduplication preserves first-seen order (per tag value it keeps
exactly the first occurrence). -/
theorem C9_tags_nodup_first_seen :
    ∀ anchors now u, u ∈ parse_updates anchors now →
      u.tags.Nodup ∧
      (∃ a, a ∈ anchors ∧ u.tags = dedupTags (a.tagEls.filter keepTag)) ∧
      (∀ raw k, (dedupTags raw).filter (fun t => t == k) =
        (raw.filter (fun t => t == k)).take 1) := by
  intro anchors now u h
  obtain ⟨a, ha, rfl⟩ := parseUpdatesAux_mem h
  refine ⟨?_, ⟨a, ha, rfl⟩, ?_⟩
  · have hn := (dedupKeyAux_nodup id [] (a.tagEls.filter keepTag)).1
    simpa [mkUpdate, dedupTags] using hn
  · intro raw k
    have hfil := dedupKeyAux_filter id [] raw k
    simpa [dedupTags] using hfil

/-- C9 witness: the theorem applied to a concrete anchor with duplicate and
filtered-out tag elements. -/
theorem C9_tags_nodup_first_seen_witness :
    (mkUpdate tNow tagAnchor).tags.Nodup :=
  (C9_tags_nodup_first_seen [tagAnchor] tNow (mkUpdate tNow tagAnchor) (by decide)).1

/-- C10: every record produced by extraction has a non-empty, absolute link:
the raw href when it starts with `"http"`, else the href prefixed with
`"https://azure.microsoft.com"` — in both cases starting with `"http"`. -/
theorem C10_links_absolute :
    ∀ anchors now u, u ∈ parse_updates anchors now →
      pyStartsWith u.link "http" = true ∧ u.link ≠ "" := by
  intro anchors now u h
  obtain ⟨a, _, rfl⟩ := parseUpdatesAux_mem h
  have hstart : pyStartsWith (mkUpdate now a).link "http" = true := by
    by_cases hh : pyStartsWith a.href "http" = true
    · simp [mkUpdate, hh]
    · have hbase : pyStartsWith "https://azure.microsoft.com" "http" = true := by
        decide
      have happ := pyStartsWith_append (t := a.href) hbase
      simpa [mkUpdate, hh] using happ
  exact ⟨hstart, pyStartsWith_ne_empty hstart (by decide)⟩

/-- C10 witness: the theorem applied to a concrete anchor with a relative
href. -/
theorem C10_links_absolute_witness :
    pyStartsWith (mkUpdate tNow goodAnchor).link "http" = true :=
  (C10_links_absolute [goodAnchor] tNow (mkUpdate tNow goodAnchor) (by decide)).1

end AzureUpdates
